import Mathlib

/-!
Verification of the package discovery and dependency resolution core of
`cmd/golo/golo.go` (with `cmd/kodos/kodos.go` as a near-identical sibling).

The Go functions are shallowly embedded:
* filesystem effects (`os.Stat`, `build.ImportDir`, `os.Open`/`Readdir`)
  become an explicit environment `FS` / an explicit directory tree `FTree`;
* `check`/`fatal` (process exit) become `Except` errors;
* the unbounded recursion of `walk` becomes fuel-indexed recursion
  (`walkFuel`), with termination proved as a fuel-sufficiency theorem;
* `crypto/sha1` is implemented bit-for-bit on `Nat` with explicit `% 2^32`.
-/

namespace Golo

/-- Result of `os.Stat`: success, the not-exists error recognised by
`os.IsNotExist`, or any other error. -/
inductive StatResult where
  | ok
  | notExist
  | otherErr
deriving DecidableEq, Repr

/-- Package descriptor, the fields of `go/build.Package` that this program
reads or writes: `ImportPath`, `Name`, `Imports`, `Dir`. -/
structure Package where
  ImportPath : String
  Name : String
  Imports : List String
  Dir : String
deriving DecidableEq, Repr

/-- Result of `go/build.ImportDir` on a directory: a package, the
`*build.NoGoError` meaning "no buildable source here", or any other error. -/
inductive ImportDirResult where
  | ok (pkg : Package)
  | noGo
  | err
deriving DecidableEq, Repr

/-- The filesystem as seen through the two primitives the resolver uses. -/
structure FS where
  stat : String → StatResult
  importDir : String → ImportDirResult

/-- Fatal errors raised (via `fatal`/`check`, which exit the process) during
dependency resolution. `cannotResolve` carries the exact module identifier
named in the `fatal("cannot resolve path", path, ...)` message. -/
inductive LoadError where
  | cannotResolve (path : String)
  | importDirFailed (dir : String)
  | statNotExist (dir : String)
deriving DecidableEq, Repr

/-- Fatal error during the source scan: `build.ImportDir` failed with
something other than `*build.NoGoError`. -/
inductive ScanError where
  | malformed
deriving DecidableEq, Repr

/-- Model of `filepath.Join` on two components. -/
def joinPath (a b : String) : String := a ++ "/" ++ b

/-- Model of `strings.HasPrefix s pre`, as the prefix test on the character
sequence of the strings. -/
def strHasPre (s pre : String) : Bool := pre.data.isPrefixOf s.data

instance {ε α : Type} [DecidableEq ε] [DecidableEq α] : DecidableEq (Except ε α) :=
  fun x y =>
    match x, y with
    | .ok a, .ok b =>
      if h : a = b then isTrue (by rw [h])
      else isFalse (by intro hc; cases hc; exact h rfl)
    | .error a, .error b =>
      if h : a = b then isTrue (by rw [h])
      else isFalse (by intro hc; cases hc; exact h rfl)
    | .ok _, .error _ => isFalse (by intro hc; cases hc)
    | .error _, .ok _ => isFalse (by intro hc; cases hc)

/-! ## SHA-1 (`crypto/sha1`) and the cache directory -/

/-- Truncation to a 32-bit word. -/
def w32 (n : Nat) : Nat := n % 4294967296

/-- Left rotation of a 32-bit word by `s` bits. -/
def rotl (s n : Nat) : Nat := w32 ((n <<< s) ||| (n >>> (32 - s)))

/-- Big-endian bytes of a 32-bit word. -/
def toBytesBE4 (n : Nat) : List Nat :=
  [n >>> 24 % 256, n >>> 16 % 256, n >>> 8 % 256, n % 256]

/-- Big-endian bytes of a 64-bit word. -/
def toBytesBE8 (n : Nat) : List Nat :=
  [n >>> 56 % 256, n >>> 48 % 256, n >>> 40 % 256, n >>> 32 % 256,
   n >>> 24 % 256, n >>> 16 % 256, n >>> 8 % 256, n % 256]

/-- SHA-1 padding: a `0x80` byte, zeros to 56 mod 64, then the bit length
as a 64-bit big-endian integer. -/
def padMessage (msg : List Nat) : List Nat :=
  let len := msg.length
  msg ++ [128] ++ List.replicate ((119 - len % 64) % 64) 0
      ++ toBytesBE8 ((len * 8) % 18446744073709551616)

/-- Split a byte list into 64-byte chunks. -/
def chunks (l : List Nat) : List (List Nat) :=
  if l.isEmpty then []
  else l.take 64 :: chunks (l.drop 64)
termination_by l.length
decreasing_by
  simp only [List.length_drop]
  cases l with
  | nil => simp [List.isEmpty] at *
  | cons a as => simp; omega

/-- Big-endian 32-bit words of a byte list. -/
def toWords : List Nat → List Nat
  | a :: b :: c :: d :: rest =>
      (a * 16777216 + b * 65536 + c * 256 + d) :: toWords rest
  | _ => []

/-- Extend the 16 message words to the 80-word SHA-1 schedule. -/
def schedule (ws : List Nat) : List Nat :=
  (List.range 64).foldl
    (fun acc _ =>
      let n := acc.length
      acc ++ [rotl 1 ((acc.getD (n - 3) 0) ^^^ (acc.getD (n - 8) 0)
               ^^^ (acc.getD (n - 14) 0) ^^^ (acc.getD (n - 16) 0))])
    ws

/-- Round function and constant of SHA-1 round `i`. -/
def fk (i b c d : Nat) : Nat × Nat :=
  if i < 20 then ((b &&& c) ||| ((b ^^^ 4294967295) &&& d), 1518500249)
  else if i < 40 then (b ^^^ c ^^^ d, 1859775393)
  else if i < 60 then ((b &&& c) ||| (b &&& d) ||| (c &&& d), 2400959708)
  else (b ^^^ c ^^^ d, 3395469782)

/-- One SHA-1 compression: fold the 80 rounds over one chunk. -/
def processChunk (hs : Nat × Nat × Nat × Nat × Nat) (chunk : List Nat) :
    Nat × Nat × Nat × Nat × Nat :=
  let ws := schedule (toWords chunk)
  let r := (List.range 80).foldl
    (fun st i =>
      let (a, b, c, d, e) := st
      let p := fk i b c d
      (w32 (rotl 5 a + p.1 + e + p.2 + ws.getD i 0), a, rotl 30 b, c, d))
    hs
  (w32 (hs.1 + r.1), w32 (hs.2.1 + r.2.1), w32 (hs.2.2.1 + r.2.2.1),
   w32 (hs.2.2.2.1 + r.2.2.2.1), w32 (hs.2.2.2.2 + r.2.2.2.2))

/-- Full SHA-1 digest (20 bytes) of a byte list, as in `sha1.Sum`. -/
def sha1 (msg : List Nat) : List Nat :=
  let hs := (chunks (padMessage msg)).foldl processChunk
    (1732584193, 4023233417, 2562383102, 271733878, 3285377520)
  toBytesBE4 hs.1 ++ toBytesBE4 hs.2.1 ++ toBytesBE4 hs.2.2.1
    ++ toBytesBE4 hs.2.2.2.1 ++ toBytesBE4 hs.2.2.2.2

/-- UTF-8 bytes of a string, as in Go's `[]byte(key)`. -/
def strBytes (s : String) : List Nat := s.toUTF8.toList.map (fun b => b.toNat)

/-- Lowercase hex digit. -/
def hexDigit (n : Nat) : Char :=
  if n < 10 then Char.ofNat (48 + n) else Char.ofNat (87 + n)

/-- Two lowercase hex digits of one byte. -/
def hexByte (b : Nat) : String := String.mk [hexDigit (b / 16), hexDigit (b % 16)]

/-- Lowercase hex of a byte list, as in `fmt.Sprintf("%x", bytes)`. -/
def hexOfBytes (bs : List Nat) : String := String.join (bs.map hexByte)

/-- Embedding of `cacheDir` (golo.go:228): SHA-1 the key, shard on the hex of
the first digest byte, leaf is the hex of the remaining 19 bytes, rooted at
`rootdir/.golo/cache`. -/
def cacheDir (rootdir key : String) : String :=
  let hash := sha1 (strBytes key)
  joinPath (joinPath (joinPath (joinPath rootdir ".golo") "cache")
    (hexOfBytes (hash.take 1))) (hexOfBytes (hash.drop 1))

/-! ## Loading a located directory -/

/-- Embedding of `importPath` (golo.go:218): `build.ImportDir` the directory
(`check(err)` makes any error fatal) and force `pkg.ImportPath` to the
requested identifier. -/
def importPath (fs : FS) (path dir : String) : Except LoadError Package :=
  match fs.importDir dir with
  | .ok pkg => .ok { pkg with ImportPath := path }
  | _ => .error (.importDirFailed dir)

/-- Embedding of the `load` closure inside `loadDependencies` (golo.go:160):
probe `GOROOT/src/<path>`; on any stat error probe `rootdir/vendor/<path>`;
on a second stat error, `fatal("cannot resolve path", path, ...)`. -/
def load (fs : FS) (goroot rootdir : String) (path : String) :
    Except LoadError Package :=
  let dir := joinPath (joinPath goroot "src") path
  if fs.stat dir = .ok then importPath fs path dir
  else
    let dir2 := joinPath (joinPath rootdir "vendor") path
    if fs.stat dir2 = .ok then importPath fs path dir2
    else .error (.cannotResolve path)

/-- Embedding of `register` (golo.go:201): derive the pinned cache directory
from the scope `pref ++ kind ++ "=" ++ arg`; the returned loader delegates
identifiers outside `pref` to `next`, and loads the rest from the cache
directory, fatally (`os.IsNotExist` + `check`) when that path is absent. -/
def register (fs : FS) (rootdir pref kind arg : String)
    (next : String → Except LoadError Package) :
    String → Except LoadError Package :=
  let dir := cacheDir rootdir (pref ++ kind ++ "=" ++ arg)
  fun path =>
    if ¬ strHasPre path pref then next path
    else
      let dir2 := joinPath dir path
      if fs.stat dir2 = .notExist then .error (.statNotExist dir2)
      else importPath fs path dir2

/-! ## Source tree scanner -/

/-- Names skipped by the scanner's directory filter (golo.go:133). -/
def skipName (name : String) : Bool :=
  strHasPre name "_" || strHasPre name "." || name == "testdata" || name == "vendor"

mutual
/-- A directory tree as `loadSources` observes it: the outcome of
`build.ImportDir` on this directory, and the `Readdir` entries in order. -/
inductive FTree where
  | node (res : ImportDirResult) (entries : EntryList)
deriving DecidableEq, Repr

/-- The `Readdir` listing of one directory, in order: plain files and
subdirectories. -/
inductive EntryList where
  | nil
  | consFile (name : String) (rest : EntryList)
  | consDir (name : String) (sub : FTree) (rest : EntryList)
deriving DecidableEq, Repr
end

/-- ImportDir outcome at the root of a tree. -/
def FTree.res : FTree → ImportDirResult
  | .node r _ => r

/-- Readdir entries at the root of a tree. -/
def FTree.entries : FTree → EntryList
  | .node _ es => es

mutual
/-- Embedding of `loadSources` (golo.go:123): recurse into unfiltered
subdirectories first (concatenating their descriptors), then `ImportDir` the
current directory — emitting one descriptor with `ImportPath = pref` on
success, nothing on `NoGoError`, and a fatal error otherwise. -/
def loadSources (pref : String) : FTree → Except ScanError (List Package)
  | .node res entries =>
    match loadEntries pref entries with
    | .error e => .error e
    | .ok subs =>
      match res with
      | .ok pkg => .ok (subs ++ [{ pkg with ImportPath := pref }])
      | .noGo => .ok subs
      | .err => .error .malformed

/-- The `Readdir` loop of `loadSources`: filtered names are skipped whether
file or directory, remaining files fail the `IsDir` check and are skipped,
and remaining subdirectories are recursed into with the module-identifier
`pref` extended by the entry name. -/
def loadEntries (pref : String) : EntryList → Except ScanError (List Package)
  | .nil => .ok []
  | .consFile _ rest => loadEntries pref rest
  | .consDir name sub rest =>
    if skipName name then loadEntries pref rest
    else
      match loadSources (joinPath pref name) sub with
      | .error e => .error e
      | .ok s =>
        match loadEntries pref rest with
        | .error e => .error e
        | .ok r => .ok (s ++ r)
end

/-! ## Dependency resolver -/

/-- The mutable state of `loadDependencies`: the `seen` set (a Go map,
modelled as the list of keys set to true) and the growing `srcs` slice. -/
structure WalkState where
  seen : List String
  srcs : List Package
deriving DecidableEq, Repr

/-- The `for _, i := range pkg.Imports { walk(i) }` loop, parametrized by
the walk step, which threads the state left to right and propagates fatal
errors and fuel exhaustion. -/
def walkList (step : WalkState → String → Option (Except LoadError WalkState)) :
    WalkState → List String → Option (Except LoadError WalkState)
  | st, [] => some (.ok st)
  | st, path :: rest =>
    match step st path with
    | none => none
    | some (.error e) => some (.error e)
    | some (.ok st1) => walkList step st1 rest

/-- Embedding of the `walk` closure (golo.go:175), indexed by fuel since the
Go recursion is unbounded: return at once on a seen identifier; otherwise
mark it seen, `load` it (fatal errors propagate), append the package, and
walk its imports. `none` means the fuel ran out. -/
def walkFuel (ld : String → Except LoadError Package) :
    Nat → WalkState → String → Option (Except LoadError WalkState)
  | 0, _, _ => none
  | fuel + 1, st, path =>
    if st.seen.contains path then some (.ok st)
    else
      match ld path with
      | .error e => some (.error e)
      | .ok pkg =>
        walkList (walkFuel ld fuel)
          { seen := path :: st.seen, srcs := st.srcs ++ [pkg] } pkg.Imports

/-- The outer loop of `loadDependencies` (golo.go:192): for every initial
package, walk each of its imports in order. -/
def walkAll (ld : String → Except LoadError Package) (fuel : Nat) :
    List Package → WalkState → Option (Except LoadError WalkState)
  | [], st => some (.ok st)
  | src :: rest, st =>
    match walkList (walkFuel ld fuel) st src.Imports with
    | none => none
    | some (.error e) => some (.error e)
    | some (.ok st1) => walkAll ld fuel rest st1

/-- Embedding of `loadDependencies` (golo.go:159): seed `seen` with the
`ImportPath` of every initial package, then walk the imports of each initial
package, returning the extended `srcs` slice. -/
def loadDependencies (fs : FS) (goroot rootdir : String) (fuel : Nat)
    (srcs : List Package) : Option (Except LoadError (List Package)) :=
  let ld := load fs goroot rootdir
  let st0 : WalkState := { seen := srcs.map (fun s => s.ImportPath), srcs := srcs }
  match walkAll ld fuel srcs st0 with
  | none => none
  | some (.error e) => some (.error e)
  | some (.ok st) => some (.ok st.srcs)

/-! ## Concrete fixtures used by witnesses and counterexamples -/

/-- Build a package fixture. -/
def mkPkg (ip n : String) (imps : List String) : Package :=
  { ImportPath := ip, Name := n, Imports := imps, Dir := "" }

/-- A package as `build.ImportDir` reports it from the standard-library copy:
its on-disk `ImportPath` metadata is deliberately not the requested one. -/
def pkgS : Package := mkPkg "ondisk/meta" "stdlibpkg" []

/-- The distinct package found in the vendor copy of the same identifier. -/
def pkgV : Package := mkPkg "ondisk/meta" "vendorpkg" []

/-- A filesystem where every path exists; the module `m` is present both
under `g/src` (as `pkgS`) and under `r/vendor` (as `pkgV`). -/
def fsBoth : FS where
  stat := fun _ => .ok
  importDir := fun d => if d = "g/src/m" then .ok pkgS else .ok pkgV

/-- A filesystem where every path exists and every directory loads as
`pkgS`. -/
def fsAllOk : FS where
  stat := fun _ => .ok
  importDir := fun _ => .ok pkgS

/-- A fallback loader that records which identifier reached it. -/
def nextFn : String → Except LoadError Package := fun p => .error (.cannotResolve p)

/-- Diamond-dependency filesystem: `b` and `c` both import `d`, all three
living under the standard-library root `g/src`. -/
def fsDiamond : FS where
  stat := fun d =>
    if d = "g/src/b" ∨ d = "g/src/c" ∨ d = "g/src/d" then .ok else .notExist
  importDir := fun d =>
    if d = "g/src/b" then .ok (mkPkg "" "b" ["d"])
    else if d = "g/src/c" then .ok (mkPkg "" "c" ["d"])
    else if d = "g/src/d" then .ok (mkPkg "" "d" [])
    else .err

/-- The initial project package of the diamond example, importing `b` and
`c`. -/
def rootPkg : Package := mkPkg "example.com/root" "main" ["b", "c"]

/-- Cyclic-import filesystem: `a` imports `b` and `b` imports `a`. -/
def fsCyc : FS where
  stat := fun d => if d = "g/src/a" ∨ d = "g/src/b" then .ok else .notExist
  importDir := fun d =>
    if d = "g/src/a" then .ok (mkPkg "" "a" ["b"])
    else if d = "g/src/b" then .ok (mkPkg "" "b" ["a"])
    else .err

/-- Initial package of the cyclic example. -/
def cycRoot : Package := mkPkg "example.com/root" "main" ["a"]

/-- A filesystem where the module `m` exists only under the vendor root. -/
def fsVendorOnly : FS where
  stat := fun d => if d = "r/vendor/m" then .ok else .notExist
  importDir := fun _ => .ok pkgV

/-- Invariant of the resolver state: the collected descriptors have
pairwise-distinct module identifiers, and every collected identifier has
been marked seen. -/
def WalkInv (st : WalkState) : Prop :=
  (st.srcs.map (fun s => s.ImportPath)).Nodup ∧
  ∀ q ∈ st.srcs, q.ImportPath ∈ st.seen

/-- A walk step preserves the invariant, only grows the seen set, and only
appends to the descriptor list. -/
def StepPres (step : WalkState → String → Option (Except LoadError WalkState)) : Prop :=
  ∀ st path st2, step st path = some (.ok st2) → WalkInv st →
    WalkInv st2 ∧ (∀ x ∈ st.seen, x ∈ st2.seen) ∧
    ∃ extra, st2.srcs = st.srcs ++ extra

/-- Number of identifiers of `keys` not yet marked seen — the measure that
strictly decreases at every loading step of the walk. -/
def UnseenCard (keys : Finset String) (seen : List String) : Nat :=
  (keys.filter (fun k => k ∉ seen)).card

/-- Scanner example tree: a non-buildable root containing a buildable
subdirectory `a`, which itself contains a buildable subdirectory `b`. -/
def treeAB : FTree :=
  .node .noGo
    (.consDir "a"
      (.node (.ok (mkPkg "x" "a" []))
        (.consDir "b" (.node (.ok (mkPkg "x" "b" [])) .nil) .nil))
      .nil)

/-- Scanner tree whose root holds `.git`, `_ignored`, `testdata` and
`vendor` directories (all with buildable contents), one real package
directory `a`, and a plain file. -/
def treeSkips : FTree :=
  .node .noGo
    (.consDir ".git" (.node (.ok (mkPkg "x" "hidden" [])) .nil)
      (.consDir "_ignored" (.node (.ok (mkPkg "x" "under" [])) .nil)
        (.consDir "testdata" (.node (.ok (mkPkg "x" "td" [])) .nil)
          (.consDir "vendor" (.node (.ok (mkPkg "x" "vnd" [])) .nil)
            (.consDir "a" (.node (.ok (mkPkg "x" "a" [])) .nil)
              (.consFile "main.go" .nil))))))

/-! ## Helper lemmas -/

/-- SHA-1 digests are 20 bytes long. -/
theorem sha1_length (msg : List Nat) : (sha1 msg).length = 20 := by
  unfold sha1
  simp [toBytesBE4]

/-- Loading a located directory forces the requested identifier onto the
descriptor. -/
theorem importPath_forces (fs : FS) (path dir : String) (pkg : Package)
    (h : importPath fs path dir = .ok pkg) : pkg.ImportPath = path := by
  unfold importPath at h
  cases hd : fs.importDir dir <;> rw [hd] at h <;> simp at h
  rw [← h]

/-- The resolver's `load` forces the requested identifier onto the
descriptor. -/
theorem load_forces (fs : FS) (goroot rootdir path : String) (pkg : Package)
    (h : load fs goroot rootdir path = .ok pkg) : pkg.ImportPath = path := by
  unfold load at h
  by_cases h1 : fs.stat (joinPath (joinPath goroot "src") path) = .ok
  · rw [if_pos h1] at h
    exact importPath_forces fs _ _ _ h
  · rw [if_neg h1] at h
    by_cases h2 : fs.stat (joinPath (joinPath rootdir "vendor") path) = .ok
    · rw [if_pos h2] at h
      exact importPath_forces fs _ _ _ h
    · rw [if_neg h2] at h
      simp at h

/-- The seen set only grows along a successful import loop. -/
theorem walkList_seen_mono
    (step : WalkState → String → Option (Except LoadError WalkState))
    (hstep : ∀ st path st2, step st path = some (.ok st2) →
      ∀ x ∈ st.seen, x ∈ st2.seen) :
    ∀ l st st2, walkList step st l = some (.ok st2) →
      ∀ x ∈ st.seen, x ∈ st2.seen := by
  intro l
  induction l with
  | nil =>
    intro st st2 h
    simp only [walkList, Option.some.injEq, Except.ok.injEq] at h
    subst h
    exact fun x hx => hx
  | cons p rest ih =>
    intro st st2 h
    simp only [walkList] at h
    cases hs : step st p with
    | none => rw [hs] at h; simp at h
    | some r =>
      rw [hs] at h
      cases r with
      | error e => simp at h
      | ok st1 =>
        intro x hx
        exact ih st1 st2 h x (hstep st p st1 hs x hx)

/-- The seen set only grows along a successful walk. -/
theorem walkFuel_seen_mono (ld : String → Except LoadError Package) :
    ∀ fuel st path st2, walkFuel ld fuel st path = some (.ok st2) →
      ∀ x ∈ st.seen, x ∈ st2.seen := by
  intro fuel
  induction fuel with
  | zero =>
    intro st path st2 h
    simp [walkFuel] at h
  | succ fuel ih =>
    intro st path st2 h
    unfold walkFuel at h
    by_cases hseen : st.seen.contains path
    · rw [if_pos hseen] at h
      simp only [Option.some.injEq, Except.ok.injEq] at h
      subst h
      exact fun x hx => hx
    · rw [if_neg hseen] at h
      cases hld : ld path with
      | error e => rw [hld] at h; simp at h
      | ok pkg =>
        rw [hld] at h
        intro x hx
        exact walkList_seen_mono (walkFuel ld fuel)
          (fun st p st2 hh => ih st p st2 hh) pkg.Imports _ st2 h x
          (List.mem_cons_of_mem path hx)

/-- A successful import loop preserves the walk invariant, grows the seen
set, and only appends descriptors. -/
theorem walkList_pres
    (step : WalkState → String → Option (Except LoadError WalkState))
    (hstep : StepPres step) :
    ∀ l st st2, walkList step st l = some (.ok st2) → WalkInv st →
      WalkInv st2 ∧ (∀ x ∈ st.seen, x ∈ st2.seen) ∧
      ∃ extra, st2.srcs = st.srcs ++ extra := by
  intro l
  induction l with
  | nil =>
    intro st st2 h hinv
    simp only [walkList, Option.some.injEq, Except.ok.injEq] at h
    subst h
    exact ⟨hinv, fun x hx => hx, [], by simp⟩
  | cons p rest ih =>
    intro st st2 h hinv
    simp only [walkList] at h
    cases hs : step st p with
    | none => rw [hs] at h; simp at h
    | some r =>
      rw [hs] at h
      cases r with
      | error e => simp at h
      | ok st1 =>
        obtain ⟨hinv1, hmono1, extra1, hsrcs1⟩ := hstep st p st1 hs hinv
        obtain ⟨hinv2, hmono2, extra2, hsrcs2⟩ := ih st1 st2 h hinv1
        exact ⟨hinv2, fun x hx => hmono2 x (hmono1 x hx), extra1 ++ extra2,
          by rw [hsrcs2, hsrcs1, List.append_assoc]⟩

/-- The walk preserves the invariant: it never appends an identifier that
is already seen, so identifiers reached through several import edges are
loaded at most once. -/
theorem walkFuel_pres (ld : String → Except LoadError Package)
    (hld : ∀ p pkg, ld p = .ok pkg → pkg.ImportPath = p) :
    ∀ fuel, StepPres (walkFuel ld fuel) := by
  intro fuel
  induction fuel with
  | zero =>
    intro st path st2 h
    simp [walkFuel] at h
  | succ fuel ih =>
    intro st path st2 h hinv
    unfold walkFuel at h
    by_cases hseen : st.seen.contains path
    · rw [if_pos hseen] at h
      simp only [Option.some.injEq, Except.ok.injEq] at h
      subst h
      exact ⟨hinv, fun x hx => hx, [], by simp⟩
    · rw [if_neg hseen] at h
      cases hld2 : ld path with
      | error e => rw [hld2] at h; simp at h
      | ok pkg =>
        rw [hld2] at h
        have hpath : pkg.ImportPath = path := hld path pkg hld2
        have hnotseen : path ∉ st.seen := by simpa using hseen
        have hnotin : path ∉ st.srcs.map (fun s => s.ImportPath) := by
          intro hc
          rcases List.mem_map.mp hc with ⟨q, hq, hqe⟩
          exact hnotseen (hqe ▸ hinv.2 q hq)
        have hinv1 : WalkInv { seen := path :: st.seen, srcs := st.srcs ++ [pkg] } := by
          constructor
          · simp only [List.map_append, List.map_cons, List.map_nil, hpath]
            simp [List.nodup_append, hinv.1, hnotin]
          · intro q hq
            rcases List.mem_append.mp hq with hq | hq
            · exact List.mem_cons_of_mem _ (hinv.2 q hq)
            · simp only [List.mem_singleton] at hq
              subst hq
              simp [hpath]
        obtain ⟨hinv2, hmono2, extra, hsrcs⟩ :=
          walkList_pres (walkFuel ld fuel) ih pkg.Imports _ st2 h hinv1
        refine ⟨hinv2, fun x hx => hmono2 x (List.mem_cons_of_mem _ hx),
          [pkg] ++ extra, ?_⟩
        rw [hsrcs]
        simp

/-- The outer loop preserves the invariant, grows the seen set, and only
appends descriptors. -/
theorem walkAll_pres (ld : String → Except LoadError Package)
    (hld : ∀ p pkg, ld p = .ok pkg → pkg.ImportPath = p) (fuel : Nat) :
    ∀ srcs st st2, walkAll ld fuel srcs st = some (.ok st2) → WalkInv st →
      WalkInv st2 ∧ (∀ x ∈ st.seen, x ∈ st2.seen) ∧
      ∃ extra, st2.srcs = st.srcs ++ extra := by
  intro srcs
  induction srcs with
  | nil =>
    intro st st2 h hinv
    simp only [walkAll, Option.some.injEq, Except.ok.injEq] at h
    subst h
    exact ⟨hinv, fun x hx => hx, [], by simp⟩
  | cons src rest ih =>
    intro st st2 h hinv
    simp only [walkAll] at h
    cases hs : walkList (walkFuel ld fuel) st src.Imports with
    | none => rw [hs] at h; simp at h
    | some r =>
      rw [hs] at h
      cases r with
      | error e => simp at h
      | ok st1 =>
        obtain ⟨hinv1, hm1, e1, hs1⟩ :=
          walkList_pres _ (walkFuel_pres ld hld fuel) _ _ _ hs hinv
        obtain ⟨hinv2, hm2, e2, hs2⟩ := ih st1 st2 h hinv1
        exact ⟨hinv2, fun x hx => hm2 x (hm1 x hx), e1 ++ e2,
          by rw [hs2, hs1, List.append_assoc]⟩

/-- Unseen identifiers never exceed the key set. -/
theorem unseen_le_card (keys : Finset String) (seen : List String) :
    UnseenCard keys seen ≤ keys.card :=
  Finset.card_le_card (Finset.filter_subset _ _)

/-- Growing the seen set can only shrink the unseen measure. -/
theorem unseen_mono (keys : Finset String) {seen seen2 : List String}
    (h : ∀ x ∈ seen, x ∈ seen2) :
    UnseenCard keys seen2 ≤ UnseenCard keys seen := by
  apply Finset.card_le_card
  intro k hk
  rw [Finset.mem_filter] at hk ⊢
  exact ⟨hk.1, fun hmem => hk.2 (h k hmem)⟩

/-- Marking an unseen key as seen strictly decreases the unseen measure. -/
theorem unseen_insert_lt (keys : Finset String) (seen : List String)
    (path : String) (hk : path ∈ keys) (hs : path ∉ seen) :
    UnseenCard keys (path :: seen) < UnseenCard keys seen := by
  apply Finset.card_lt_card
  have hsub : keys.filter (fun k => k ∉ path :: seen) ⊆
      keys.filter (fun k => k ∉ seen) := by
    intro k hkk
    rw [Finset.mem_filter] at hkk ⊢
    exact ⟨hkk.1, fun hmem => hkk.2 (List.mem_cons_of_mem path hmem)⟩
  rw [Finset.ssubset_iff_of_subset hsub]
  exact ⟨path, by simp [Finset.mem_filter, hk, hs], by simp [Finset.mem_filter]⟩

/-- Joint fuel-sufficiency: as long as the fuel exceeds the number of
identifiers not yet seen, neither the walk nor the import loop runs out. -/
theorem walk_total (ld : String → Except LoadError Package)
    (keys : Finset String) (hld : ∀ p pkg, ld p = .ok pkg → p ∈ keys) :
    ∀ fuel,
      (∀ st path, UnseenCard keys st.seen < fuel →
        walkFuel ld fuel st path ≠ none) ∧
      (∀ l st, UnseenCard keys st.seen < fuel →
        walkList (walkFuel ld fuel) st l ≠ none) := by
  intro fuel
  induction fuel with
  | zero =>
    exact ⟨fun st path h => absurd h (by omega),
           fun l st h => absurd h (by omega)⟩
  | succ fuel ih =>
    have hwf : ∀ st path, UnseenCard keys st.seen < fuel + 1 →
        walkFuel ld (fuel + 1) st path ≠ none := by
      intro st path hu
      unfold walkFuel
      by_cases hseen : st.seen.contains path
      · have hm : path ∈ st.seen := by simpa using hseen
        simp [hm]
      · rw [if_neg hseen]
        cases hld2 : ld path with
        | error e => simp
        | ok pkg =>
          apply ih.2
          have hlt := unseen_insert_lt keys st.seen path (hld _ _ hld2)
            (by simpa using hseen)
          show UnseenCard keys (path :: st.seen) < fuel
          omega
    refine ⟨hwf, ?_⟩
    intro l
    induction l with
    | nil =>
      intro st h
      simp [walkList]
    | cons p rest ihl =>
      intro st hu
      unfold walkList
      cases hw : walkFuel ld (fuel + 1) st p with
      | none => exact absurd hw (hwf st p hu)
      | some r =>
        cases r with
        | error e => simp
        | ok st1 =>
          have hmono := walkFuel_seen_mono ld (fuel + 1) st p st1 hw
          have := unseen_mono keys hmono
          exact ihl st1 (by omega)

/-- Fuel sufficiency for the outer loop over the initial packages. -/
theorem walkAll_total (ld : String → Except LoadError Package)
    (keys : Finset String) (hld : ∀ p pkg, ld p = .ok pkg → p ∈ keys)
    (fuel : Nat) :
    ∀ srcs st, UnseenCard keys st.seen < fuel →
      walkAll ld fuel srcs st ≠ none := by
  intro srcs
  induction srcs with
  | nil =>
    intro st h
    simp [walkAll]
  | cons src rest ih =>
    intro st hu
    unfold walkAll
    cases hw : walkList (walkFuel ld fuel) st src.Imports with
    | none => exact absurd hw ((walk_total ld keys hld fuel).2 src.Imports st hu)
    | some r =>
      cases r with
      | error e => simp
      | ok st1 =>
        have hmono := walkList_seen_mono (walkFuel ld fuel)
          (walkFuel_seen_mono ld fuel) src.Imports st st1 hw
        have := unseen_mono keys hmono
        exact ih st1 (by omega)

/-- Appending the second component of a join is injective. -/
theorem joinPath_right_inj {a b c : String} (h : joinPath a b = joinPath a c) :
    b = c := by
  unfold joinPath at h
  have h2 := congrArg String.data h
  simp only [String.data_append, List.append_assoc] at h2
  exact String.ext (List.append_cancel_left (List.append_cancel_left h2))

/-- Length of a joined path. -/
theorem joinPath_length (a b : String) :
    (joinPath a b).length = a.length + 1 + b.length := by
  unfold joinPath
  have hs : ("/" : String).length = 1 := rfl
  simp [String.length_append, hs]

/-- In the cyclic fixture, `load` only ever succeeds on the identifiers
`a` and `b`: its import graph is finite. -/
theorem fsCyc_support :
    ∀ p pkg, load fsCyc "g" "r" p = .ok pkg →
      p ∈ ({"a", "b"} : Finset String) := by
  intro p pkg h
  unfold load at h
  by_cases h1 : fsCyc.stat (joinPath (joinPath "g" "src") p) = .ok
  · have hcond : joinPath (joinPath "g" "src") p = "g/src/a" ∨
        joinPath (joinPath "g" "src") p = "g/src/b" := by
      by_contra hc
      simp only [fsCyc] at h1
      rw [if_neg hc] at h1
      cases h1
    rcases hcond with hc | hc
    · have hp : p = "a" := joinPath_right_inj
        (hc.trans (rfl : ("g/src/a" : String) = joinPath (joinPath "g" "src") "a"))
      simp [hp]
    · have hp : p = "b" := joinPath_right_inj
        (hc.trans (rfl : ("g/src/b" : String) = joinPath (joinPath "g" "src") "b"))
      simp [hp]
  · rw [if_neg h1] at h
    have h2 : fsCyc.stat (joinPath (joinPath "r" "vendor") p) ≠ .ok := by
      simp only [fsCyc]
      rw [if_neg ?hnc]
      · intro hc
        cases hc
      case hnc =>
        have e1 : ("r" : String).length = 1 := rfl
        have e2 : ("vendor" : String).length = 6 := rfl
        have e3 : ("g/src/a" : String).length = 7 := rfl
        have e4 : ("g/src/b" : String).length = 7 := rfl
        rintro (hc | hc)
        · have hlen := congrArg String.length hc
          rw [joinPath_length, joinPath_length, e1, e2, e3] at hlen
          omega
        · have hlen := congrArg String.length hc
          rw [joinPath_length, joinPath_length, e1, e2, e4] at hlen
          omega
    rw [if_neg h2] at h
    cases h
theorem loadSources_names (pref : String) (t : FTree) :
    ∀ out, loadSources pref t = .ok out → ∀ pkg ∈ out,
      ∃ names : List String, pkg.ImportPath = List.foldl joinPath pref names ∧
        ∀ n ∈ names, skipName n = false := by
  refine loadSources.induct
    (fun pref t => ∀ out, loadSources pref t = .ok out → ∀ pkg ∈ out,
      ∃ names : List String, pkg.ImportPath = List.foldl joinPath pref names ∧
        ∀ n ∈ names, skipName n = false)
    (fun pref es => ∀ out, loadEntries pref es = .ok out → ∀ pkg ∈ out,
      ∃ names : List String, pkg.ImportPath = List.foldl joinPath pref names ∧
        ∀ n ∈ names, skipName n = false)
    ?_ ?_ ?_ ?_ ?_ ?_ ?_ ?_ ?_ ?_ pref t
  · intro pref res es e he _ out h
    simp [loadSources, he] at h
  · intro pref es subs hsubs pkg ih out h pkg2 hmem
    simp only [loadSources, hsubs] at h
    cases h
    rcases List.mem_append.mp hmem with hin | hin
    · exact ih subs hsubs pkg2 hin
    · refine ⟨[], ?_, by simp⟩
      simp only [List.mem_singleton] at hin
      simp [hin]
  · intro pref es subs hsubs ih out h
    simp only [loadSources, hsubs] at h
    cases h
    exact ih subs hsubs
  · intro pref es subs hsubs ih out h
    simp [loadSources, hsubs] at h
  · intro pref out h
    simp only [loadEntries] at h
    cases h
    simp
  · intro pref name rest ih out h
    simp only [loadEntries] at h
    exact ih out h
  · intro pref name sub rest hskip ih out h
    simp only [loadEntries, hskip, if_pos] at h
    exact ih out h
  · intro pref name sub rest hskip e hsub ih out h
    simp [loadEntries, hskip, hsub] at h
  · intro pref name sub rest hskip subs hsub e hrest ih1 ih2 out h
    simp [loadEntries, hskip, hsub, hrest] at h
  · intro pref name sub rest hskip s hsub r hrest ih1 ih2 out h
    simp only [loadEntries, hskip, hsub, hrest, if_neg, Bool.not_eq_true] at h
    injection h with h
    subst h
    intro pkg hmem
    rcases List.mem_append.mp hmem with hin | hin
    · rcases ih1 s hsub pkg hin with ⟨names, hip, hok⟩
      refine ⟨name :: names, by simpa using hip, ?_⟩
      intro n hn
      rcases List.mem_cons.mp hn with hn | hn
      · subst hn
        exact Bool.not_eq_true _ |>.mp hskip
      · exact hok n hn
    · exact ih2 r hrest pkg hin

/-! ## Claims -/

/-- C1: the resolver's `load` primitive probes the path joining the
standard-library root with the identifier first and uses it whenever it
exists (regardless of the vendor directory); only otherwise does it probe
`vendor/<moduleID>` under the project root; and when neither path exists it
fails fatally with an error naming exactly the requested identifier. -/
theorem claim_C1_load_probe_order (fs : FS) (goroot rootdir path : String) :
    (fs.stat (joinPath (joinPath goroot "src") path) = .ok →
      load fs goroot rootdir path =
        importPath fs path (joinPath (joinPath goroot "src") path)) ∧
    (fs.stat (joinPath (joinPath goroot "src") path) ≠ .ok →
      fs.stat (joinPath (joinPath rootdir "vendor") path) = .ok →
      load fs goroot rootdir path =
        importPath fs path (joinPath (joinPath rootdir "vendor") path)) ∧
    (fs.stat (joinPath (joinPath goroot "src") path) ≠ .ok →
      fs.stat (joinPath (joinPath rootdir "vendor") path) ≠ .ok →
      load fs goroot rootdir path = .error (.cannotResolve path)) := by
  refine ⟨fun h1 => ?_, fun h1 h2 => ?_, fun h1 h2 => ?_⟩
  · simp [load, h1]
  · simp [load, h1, h2]
  · simp [load, h1, h2]

/-- Witness for C1: with the identifier `m` present under both roots, `load`
resolves it from the standard-library root. -/
theorem claim_C1_witness :
    load fsBoth "g" "r" "m" =
      importPath fsBoth "m" (joinPath (joinPath "g" "src") "m") :=
  (claim_C1_load_probe_order fsBoth "g" "r" "m").1 rfl

/-- Counterexample to C2 as stated: `m` is present under the vendor root
(`fsBoth.stat` succeeds there and loading there would give `pkgV`), yet
`load` returns the standard-library package `pkgS`, not the vendor one —
the code prefers the standard-library root, not the vendor override. -/
theorem claim_C2_counterexample :
    fsBoth.stat (joinPath (joinPath "r" "vendor") "m") = .ok ∧
    importPath fsBoth "m" (joinPath (joinPath "r" "vendor") "m") =
      .ok { pkgV with ImportPath := "m" } ∧
    load fsBoth "g" "r" "m" = .ok { pkgS with ImportPath := "m" } ∧
    ({ pkgS with ImportPath := "m" } : Package) ≠ { pkgV with ImportPath := "m" } := by
  refine ⟨rfl, by decide, by decide, by decide⟩

/-- C2 (amended): expanding the import graph resolves each imported module
identifier preferring the standard-library root, and falls back to the
vendor override only when the standard-library path does not exist. -/
theorem claim_C2_amended_stdlib_preferred (fs : FS) (goroot rootdir path : String) :
    (fs.stat (joinPath (joinPath goroot "src") path) = .ok →
      load fs goroot rootdir path =
        importPath fs path (joinPath (joinPath goroot "src") path)) ∧
    (fs.stat (joinPath (joinPath goroot "src") path) ≠ .ok →
      fs.stat (joinPath (joinPath rootdir "vendor") path) = .ok →
      load fs goroot rootdir path =
        importPath fs path (joinPath (joinPath rootdir "vendor") path)) := by
  refine ⟨fun h1 => ?_, fun h1 h2 => ?_⟩
  · simp [load, h1]
  · simp [load, h1, h2]

/-- Witness for amended C2: with `m` only under the vendor root, `load`
falls back to the vendor directory. -/
theorem claim_C2_amended_witness :
    load fsVendorOnly "g" "r" "m" =
      importPath fsVendorOnly "m" (joinPath (joinPath "r" "vendor") "m") :=
  (claim_C2_amended_stdlib_preferred fsVendorOnly "g" "r" "m").2 (by decide) (by decide)

/-- C4: the loader returned by `register` delegates identifiers outside the
prefix unchanged to the fallback; identifiers under the prefix are loaded
from the cache directory derived from the scope `pref ++ kind ++ "=" ++ arg`
joined with the identifier, failing fatally when that path does not exist. -/
theorem claim_C4_register_scope (fs : FS) (rootdir pref kind arg path : String)
    (next : String → Except LoadError Package) :
    (strHasPre path pref = false →
      register fs rootdir pref kind arg next path = next path) ∧
    (strHasPre path pref = true →
      (fs.stat (joinPath (cacheDir rootdir (pref ++ kind ++ "=" ++ arg)) path) = .notExist →
        register fs rootdir pref kind arg next path =
          .error (.statNotExist
            (joinPath (cacheDir rootdir (pref ++ kind ++ "=" ++ arg)) path))) ∧
      (fs.stat (joinPath (cacheDir rootdir (pref ++ kind ++ "=" ++ arg)) path) ≠ .notExist →
        register fs rootdir pref kind arg next path =
          importPath fs path
            (joinPath (cacheDir rootdir (pref ++ kind ++ "=" ++ arg)) path))) := by
  refine ⟨fun h => ?_, fun h => ⟨fun hs => ?_, fun hs => ?_⟩⟩
  · simp [register, h]
  · simp [register, h, hs]
  · simp [register, h, hs]

/-- Witness for C4: `register(root, "example.com/foo", "pin", "v1", next)`
delegates `example.com/other` unchanged to the fallback, and serves
`example.com/foo/bar` from the derived pinned cache directory. -/
theorem claim_C4_witness :
    register fsAllOk "root" "example.com/foo" "pin" "v1" nextFn "example.com/other" =
      nextFn "example.com/other" ∧
    register fsAllOk "root" "example.com/foo" "pin" "v1" nextFn "example.com/foo/bar" =
      importPath fsAllOk "example.com/foo/bar"
        (joinPath (cacheDir "root" ("example.com/foo" ++ "pin" ++ "=" ++ "v1"))
          "example.com/foo/bar") :=
  ⟨(claim_C4_register_scope fsAllOk "root" "example.com/foo" "pin" "v1"
      "example.com/other" nextFn).1 (by decide),
   ((claim_C4_register_scope fsAllOk "root" "example.com/foo" "pin" "v1"
      "example.com/foo/bar" nextFn).2 (by decide)).2 (by simp [fsAllOk])⟩

/-- C8: `cacheDir` is a pure function — equal scope strings give equal
paths — and its result is the project root extended by the tool cache
directory, then a shard named by the hex of the first SHA-1 digest byte,
then a leaf named by the hex of the remaining 19 digest bytes. -/
theorem claim_C8_cacheDir_deterministic (root k1 k2 : String) (h : k1 = k2) :
    cacheDir root k1 = cacheDir root k2 ∧
    ∃ b rest, sha1 (strBytes k1) = b :: rest ∧ rest.length = 19 ∧
      cacheDir root k1 =
        joinPath (joinPath (joinPath (joinPath root ".golo") "cache")
          (hexOfBytes [b])) (hexOfBytes rest) := by
  subst h
  refine ⟨rfl, ?_⟩
  have hl := sha1_length (strBytes k1)
  cases hs : sha1 (strBytes k1) with
  | nil => rw [hs] at hl; simp at hl
  | cons b rest =>
    rw [hs] at hl
    refine ⟨b, rest, rfl, by simpa using hl, ?_⟩
    unfold cacheDir
    simp only [hs, List.take_succ_cons, List.take_zero, List.drop_succ_cons,
      List.drop_zero]

/-- Witness for C8: `cacheDir` applied twice to the scope `a:b=c` yields the
same sharded path. -/
theorem claim_C8_witness :
    cacheDir "root" "a:b=c" = cacheDir "root" "a:b=c" ∧
    ∃ b rest, sha1 (strBytes "a:b=c") = b :: rest ∧ rest.length = 19 ∧
      cacheDir "root" "a:b=c" =
        joinPath (joinPath (joinPath (joinPath "root" ".golo") "cache")
          (hexOfBytes [b])) (hexOfBytes rest) :=
  claim_C8_cacheDir_deterministic "root" "a:b=c" "a:b=c" rfl

/-- C9: every descriptor produced by loading a located directory — directly
via `importPath`, via the standard `load` lookup, or via the pinned-cache
lookup of `register` — has its `ImportPath` forced to the requested
identifier, overriding the on-disk metadata. -/
theorem claim_C9_moduleID_forced (fs : FS) (goroot rootdir pref kind arg : String)
    (next : String → Except LoadError Package) :
    (∀ path dir pkg, importPath fs path dir = .ok pkg → pkg.ImportPath = path) ∧
    (∀ path pkg, load fs goroot rootdir path = .ok pkg → pkg.ImportPath = path) ∧
    (∀ path pkg, strHasPre path pref = true →
      register fs rootdir pref kind arg next path = .ok pkg →
      pkg.ImportPath = path) := by
  have hip : ∀ path dir pkg, importPath fs path dir = .ok pkg → pkg.ImportPath = path := by
    intro path dir pkg h
    unfold importPath at h
    cases hd : fs.importDir dir <;> rw [hd] at h <;> simp at h
    rw [← h]
  refine ⟨hip, fun path pkg h => ?_, fun path pkg hpre h => ?_⟩
  · unfold load at h
    by_cases h1 : fs.stat (joinPath (joinPath goroot "src") path) = .ok
    · rw [if_pos h1] at h
      exact hip _ _ _ h
    · rw [if_neg h1] at h
      by_cases h2 : fs.stat (joinPath (joinPath rootdir "vendor") path) = .ok
      · rw [if_pos h2] at h
        exact hip _ _ _ h
      · rw [if_neg h2] at h
        simp at h
  · unfold register at h
    rw [if_neg (by simp [hpre])] at h
    by_cases h2 : fs.stat (joinPath (cacheDir rootdir (pref ++ kind ++ "=" ++ arg)) path) = .notExist
    · rw [if_pos h2] at h
      simp at h
    · rw [if_neg h2] at h
      exact hip _ _ _ h

/-- Witness for C9: loading `m` from `fsBoth` (whose on-disk metadata says
`ondisk/meta`) yields a descriptor whose `ImportPath` is the requested `m`. -/
theorem claim_C9_witness :
    ({ pkgS with ImportPath := "m" } : Package).ImportPath = "m" :=
  (claim_C9_moduleID_forced fsBoth "g" "r" "p" "k" "a" nextFn).2.1 "m"
    { pkgS with ImportPath := "m" } (by decide)

/-- C5: entries named with a leading `.` or `_`, or named `testdata` or
`vendor`, are skipped entirely by the scan — every descriptor of a
successful scan has a module identifier built from the prefix by appending
only names that pass the filter, so no identifier passes through a skipped
directory. -/
theorem claim_C5_filtered_skipped (pref : String) (t : FTree) (out : List Package)
    (h : loadSources pref t = .ok out) :
    ∀ pkg ∈ out, ∃ names : List String,
      pkg.ImportPath = List.foldl joinPath pref names ∧
      ∀ n ∈ names, skipName n = false :=
  loadSources_names pref t out h

/-- Witness for C5: scanning a tree with `.git`, `_ignored`, `testdata` and
`vendor` subdirectories returns only the descriptor of `a`, whose identifier
is built from the one filter-passing name `a`. -/
theorem claim_C5_witness :
    ∃ names : List String,
      (⟨joinPath "pre" "a", "a", [], ""⟩ : Package).ImportPath =
        List.foldl joinPath "pre" names ∧
      ∀ n ∈ names, skipName n = false :=
  claim_C5_filtered_skipped "pre" treeSkips
    [⟨joinPath "pre" "a", "a", [], ""⟩] (by decide)
    ⟨joinPath "pre" "a", "a", [], ""⟩ (by decide)

/-- C6: for a root whose buildable subdirectory `nA` itself contains a
buildable subdirectory `nB`, the scan output lists the descendant
`pref/nA/nB` strictly before the ancestor `pref/nA`, because each recursive
result is concatenated before the current directory's own descriptor. -/
theorem claim_C6_children_before_self (pref nA nB : String)
    (resR : ImportDirResult) (pkgA pkgB : Package) (out : List Package)
    (hA : skipName nA = false) (hB : skipName nB = false)
    (h : loadSources pref
      (.node resR
        (.consDir nA
          (.node (.ok pkgA) (.consDir nB (.node (.ok pkgB) .nil) .nil))
          .nil)) = .ok out) :
    ∃ rest, out =
      { pkgB with ImportPath := joinPath (joinPath pref nA) nB } ::
      { pkgA with ImportPath := joinPath pref nA } :: rest := by
  cases resR <;>
    simp only [loadSources, loadEntries, hA, hB, Bool.false_eq_true, if_false] at h
  · injection h with h
    exact ⟨_, h.symm⟩
  · injection h with h
    exact ⟨_, h.symm⟩
  · cases h

/-- Witness for C6: scanning the concrete tree `root/{a, a/b}` yields the
descriptor of `pre/a/b` before that of `pre/a`. -/
theorem claim_C6_witness :
    ∃ rest, [({ mkPkg "x" "b" [] with ImportPath := joinPath (joinPath "pre" "a") "b" } : Package),
             { mkPkg "x" "a" [] with ImportPath := joinPath "pre" "a" }] =
      { mkPkg "x" "b" [] with ImportPath := joinPath (joinPath "pre" "a") "b" } ::
      { mkPkg "x" "a" [] with ImportPath := joinPath "pre" "a" } :: rest :=
  claim_C6_children_before_self "pre" "a" "b" .noGo (mkPkg "x" "a" []) (mkPkg "x" "b" [])
    [{ mkPkg "x" "b" [] with ImportPath := joinPath (joinPath "pre" "a") "b" },
     { mkPkg "x" "a" [] with ImportPath := joinPath "pre" "a" }]
    (by decide) (by decide) (by decide)

/-- C7: loading the current directory during a scan emits exactly one
descriptor with `ImportPath` equal to the current prefix when it has
buildable source, emits nothing (without error) when `ImportDir` reports no
buildable source, and any other load failure — or a failure inside any
subdirectory — aborts the scan with an error. -/
theorem claim_C7_scan_outcomes (pref : String) (res : ImportDirResult)
    (entries : EntryList) :
    (∀ e, loadEntries pref entries = .error e →
      loadSources pref (.node res entries) = .error e) ∧
    (∀ subs, loadEntries pref entries = .ok subs →
      (∀ pkg, res = .ok pkg →
        loadSources pref (.node res entries) =
          .ok (subs ++ [{ pkg with ImportPath := pref }])) ∧
      (res = .noGo → loadSources pref (.node res entries) = .ok subs) ∧
      (res = .err → loadSources pref (.node res entries) = .error .malformed)) := by
  constructor
  · intro e he
    simp [loadSources, he]
  · intro subs hs
    refine ⟨fun pkg hres => ?_, fun hres => ?_, fun hres => ?_⟩ <;>
      subst hres <;> simp [loadSources, hs]

/-- Witness for C7: a buildable directory yields exactly its own
descriptor, a non-buildable one yields nothing without error, and a
malformed one is a fatal scan error. -/
theorem claim_C7_witness :
    loadSources "p" (.node (.ok pkgS) .nil) = .ok ([] ++ [{ pkgS with ImportPath := "p" }]) ∧
    loadSources "p" (.node .noGo .nil) = .ok [] ∧
    loadSources "p" (.node .err .nil) = .error .malformed :=
  ⟨((claim_C7_scan_outcomes "p" (.ok pkgS) .nil).2 [] (by decide)).1 pkgS rfl,
   ((claim_C7_scan_outcomes "p" .noGo .nil).2 [] (by decide)).2.1 rfl,
   ((claim_C7_scan_outcomes "p" .err .nil).2 [] (by decide)).2.2 rfl⟩

/-- C3: when the initial package set has distinct module identifiers,
dependency expansion — whose seen set is seeded with every initial
identifier and never re-walks a seen identifier — returns a sequence whose
identifiers are pairwise distinct (so a diamond dependency appears exactly
once) and which preserves the initial descriptors as its prefix. -/
theorem claim_C3_loaded_exactly_once (fs : FS) (goroot rootdir : String)
    (fuel : Nat) (srcs out : List Package)
    (hnodup : (srcs.map (fun s => s.ImportPath)).Nodup)
    (h : loadDependencies fs goroot rootdir fuel srcs = some (.ok out)) :
    (out.map (fun s => s.ImportPath)).Nodup ∧ out.take srcs.length = srcs := by
  unfold loadDependencies at h
  simp only [] at h
  cases hw : walkAll (load fs goroot rootdir) fuel srcs
      { seen := srcs.map (fun s => s.ImportPath), srcs := srcs } with
  | none => rw [hw] at h; simp at h
  | some r =>
    rw [hw] at h
    cases r with
    | error e => simp at h
    | ok st =>
      simp only [Option.some.injEq, Except.ok.injEq] at h
      subst h
      have hinv0 : WalkInv { seen := srcs.map (fun s => s.ImportPath), srcs := srcs } :=
        ⟨hnodup, fun q hq => List.mem_map_of_mem _ hq⟩
      obtain ⟨hinv, hm, extra, hsrcs⟩ :=
        walkAll_pres _ (fun p pkg hp => load_forces fs goroot rootdir p pkg hp)
          fuel srcs _ st hw hinv0
      refine ⟨hinv.1, ?_⟩
      rw [hsrcs]
      exact List.take_left srcs extra

/-- Witness for C3: in the diamond graph where `b` and `c` both import `d`,
expansion loads `d` exactly once — the output identifiers are distinct and
the initial package is preserved. -/
theorem claim_C3_witness :
    (([rootPkg, mkPkg "b" "b" ["d"], mkPkg "d" "d" [], mkPkg "c" "c" ["d"]].map
        (fun s => s.ImportPath)).Nodup) ∧
    [rootPkg, mkPkg "b" "b" ["d"], mkPkg "d" "d" [], mkPkg "c" "c" ["d"]].take 1 =
      [rootPkg] :=
  claim_C3_loaded_exactly_once fsDiamond "g" "r" 5 [rootPkg]
    [rootPkg, mkPkg "b" "b" ["d"], mkPkg "d" "d" [], mkPkg "c" "c" ["d"]]
    (by decide) (by decide)

/-- C10: for every finite import graph — `load` succeeds only on a finite
key set — the dependency walk terminates: any fuel beyond the key count is
never exhausted, because each loading step marks an unseen identifier seen
and the unseen count strictly decreases; cyclic graphs are covered since a
seen identifier returns immediately. -/
theorem claim_C10_walk_terminates (fs : FS) (goroot rootdir : String)
    (keys : Finset String)
    (hld : ∀ p pkg, load fs goroot rootdir p = .ok pkg → p ∈ keys)
    (fuel : Nat) (srcs : List Package) (hfuel : keys.card < fuel) :
    loadDependencies fs goroot rootdir fuel srcs ≠ none := by
  unfold loadDependencies
  simp only []
  have h := walkAll_total (load fs goroot rootdir) keys hld fuel srcs
    { seen := srcs.map (fun s => s.ImportPath), srcs := srcs }
    (lt_of_le_of_lt (unseen_le_card _ _) hfuel)
  cases hw : walkAll (load fs goroot rootdir) fuel srcs
      { seen := srcs.map (fun s => s.ImportPath), srcs := srcs } with
  | none => exact absurd hw h
  | some r => cases r <;> simp

/-- Witness for C10: the walk over the cyclic graph where `a` imports `b`
and `b` imports `a` terminates with fuel 3 > 2 identifiers. -/
theorem claim_C10_witness :
    loadDependencies fsCyc "g" "r" 3 [cycRoot] ≠ none :=
  claim_C10_walk_terminates fsCyc "g" "r" {"a", "b"} fsCyc_support 3 [cycRoot]
    (by decide)

end Golo
